import Mathlib

/-!
Verification of the breezy live-reload middleware (src/livereload.go).

Go strings are modelled as lists of characters, the net/http header map as an
association list from key to value list, and the real response writer as a
record carrying the header map, the wrote-header flag and the sequence of
events that reached the wire (status line, header block, body chunk).  The
wrapped handler is abstracted as the list of operations it performs against
the response-writer interface.  The websocket notification endpoint is
modelled with the connection abstracted as the outcome of the upgrade, the
outcome of the single send, and the sequence of inbound read outcomes.
-/

namespace Breezy

/-- Go strings, modelled as lists of characters. -/
abbrev GoStr := List Char

/-- Model of strings.Contains s pat: pat occurs as a contiguous substring of s. -/
def hasSubstr (pat : GoStr) : GoStr → Bool
  | [] => decide (pat = [])
  | c :: rest => pat.isPrefixOf (c :: rest) || hasSubstr pat rest

/-- Model of strings.Replace s pat rep 1: replace the first occurrence of pat in s
by rep, leaving s unchanged when pat does not occur. -/
def replaceFirst (pat rep : GoStr) : GoStr → GoStr
  | [] => if pat = [] then rep else []
  | c :: rest =>
      if pat.isPrefixOf (c :: rest) then rep ++ (c :: rest).drop pat.length
      else c :: replaceFirst pat rep rest

/-- Model of strings.ToLower as per-character lower-casing.  This is faithful for
the ASCII HTML markers searched by isHTMLResponse, since no character's
lower-case form can introduce any character of those markers. -/
def toLowerStr (s : GoStr) : GoStr := s.map Char.toLower

/-- Model of the net/http header map: association list from (canonical) key to
the list of values stored under it. -/
abbrev HeaderMap := List (GoStr × List GoStr)

/-- Model of http.Header.Get: the first value stored under the key, or the empty
string when the key is absent or has no values. -/
def hGet : HeaderMap → GoStr → GoStr
  | [], _ => []
  | (k', vs) :: rest, k => if k' = k then vs.headD [] else hGet rest k

/-- Model of http.Header.Add: append the value to the slice stored under the key,
creating the entry when the key is absent. -/
def hAdd : HeaderMap → GoStr → GoStr → HeaderMap
  | [], k, v => [(k, [v])]
  | (k', vs) :: rest, k, v =>
      if k' = k then (k', vs ++ [v]) :: rest else (k', vs) :: hAdd rest k v

def headClose : GoStr := "</head>".toList

def bodyCloseTag : GoStr := "</body>".toList

def htmlClose : GoStr := "</html>".toList

def newlineStr : GoStr := ['\n']

def contentTypeKey : GoStr := "Content-Type".toList

def textHtml : GoStr := "text/html".toList

def htmlOpen : GoStr := "<html".toList

def doctypeHtml : GoStr := "<!doctype html".toList

def headOpen : GoStr := "<head>".toList

def bodyOpen : GoStr := "<body".toList

def localhostStr : GoStr := "localhost".toList

def loopbackStr : GoStr := "127.0.0.1".toList

def localhostColon : GoStr := "localhost:".toList

def loopbackColon : GoStr := "127.0.0.1:".toList

def wsPath : GoStr := "/ws/livereload".toList

/-- Model of an inbound request: the target host and the request path. -/
structure Request where
  host : GoStr
  path : GoStr
deriving DecidableEq

/-- Embedding of isHTMLResponse (src/livereload.go lines 46-58). -/
def isHTMLResponse (body : GoStr) (headers : HeaderMap) : Bool :=
  let contentType := hGet headers contentTypeKey
  if hasSubstr textHtml contentType then true
  else
    let bodyLower := toLowerStr body
    hasSubstr htmlOpen bodyLower || hasSubstr doctypeHtml bodyLower ||
      hasSubstr headOpen bodyLower ||
      (hasSubstr bodyOpen bodyLower && hasSubstr bodyCloseTag bodyLower)

/-- Embedding of isDevelopmentMode (src/livereload.go lines 60-66). -/
def isDevelopmentMode (r : Request) : Bool :=
  hasSubstr localhostStr r.host || hasSubstr loopbackStr r.host ||
    localhostColon.isPrefixOf r.host || loopbackColon.isPrefixOf r.host

/-- Embedding of injectScript (src/livereload.go lines 68-79).  The embedded
script.html asset is not under src/; modelled from the spec: the snippet is an
opaque constant string, taken here as a parameter. -/
def injectScript (script : GoStr) (body : GoStr) : GoStr :=
  if hasSubstr headClose body then
    replaceFirst headClose (script ++ newlineStr ++ headClose) body
  else if hasSubstr bodyCloseTag body then
    replaceFirst bodyCloseTag (script ++ newlineStr ++ bodyCloseTag) body
  else if hasSubstr htmlClose body then
    replaceFirst htmlClose (script ++ newlineStr ++ htmlClose) body
  else body ++ script

/-- An event on the wire of the real connection: the status line (with a flag
recording whether it came from an explicit WriteHeader call or was written
implicitly by the first Write), the header block sent together with the status
line, or a chunk of body bytes. -/
inductive WireEvent
  | statusLine (code : Nat) (explicitCall : Bool)
  | headerBlock (hdr : HeaderMap)
  | bodyChunk (bytes : GoStr)
deriving DecidableEq

/-- Model of the real net/http response writer: its header map, whether the
status line has been written, and the events already on the wire. -/
structure RealWriter where
  header : HeaderMap
  wroteHeader : Bool
  wire : List WireEvent
deriving DecidableEq

/-- Model of net/http writing the status line: a second call is ignored; the
first call puts the status line followed by the current header block on the
wire. -/
def realWriteHeaderCore (w : RealWriter) (code : Nat) (explicitCall : Bool) : RealWriter :=
  if w.wroteHeader then w
  else
    { header := w.header, wroteHeader := true,
      wire := w.wire ++ [WireEvent.statusLine code explicitCall, WireEvent.headerBlock w.header] }

/-- An explicit WriteHeader call on the real writer. -/
def realWriteHeader (w : RealWriter) (code : Nat) : RealWriter :=
  realWriteHeaderCore w code true

/-- A Write call on the real writer: implicitly writes status 200 first when the
status line has not been written yet, then puts the bytes on the wire. -/
def realWrite (w : RealWriter) (bytes : GoStr) : RealWriter :=
  let w' := realWriteHeaderCore w 200 false
  { header := w'.header, wroteHeader := w'.wroteHeader,
    wire := w'.wire ++ [WireEvent.bodyChunk bytes] }

/-- A Header().Add call on the real writer: mutates the header map only. -/
def realHeaderAdd (w : RealWriter) (k v : GoStr) : RealWriter :=
  { header := hAdd w.header k v, wroteHeader := w.wroteHeader, wire := w.wire }

/-- The wrapped handler abstracted as the operations it performs against the
response-writer interface. -/
inductive HandlerOp
  | write (bytes : GoStr)
  | writeHeader (code : Nat)
  | headerAdd (k v : GoStr)
deriving DecidableEq

/-- Running the wrapped handler directly against the real response writer. -/
def runReal : List HandlerOp → RealWriter → RealWriter
  | [], w => w
  | HandlerOp.write b :: ops, w => runReal ops (realWrite w b)
  | HandlerOp.writeHeader c :: ops, w => runReal ops (realWriteHeader w c)
  | HandlerOp.headerAdd k v :: ops, w => runReal ops (realHeaderAdd w k v)

/-- Embedding of the responseWriter capturer (src/livereload.go lines 26-42):
it holds the real writer, the buffered body, and the recorded status code. -/
structure CapturedWriter where
  real : RealWriter
  body : GoStr
  statusCode : Nat
deriving DecidableEq

/-- Embedding of responseWriter.Write (src/livereload.go lines 32-34): appends to
the in-memory buffer and returns the byte count and no error. -/
def rwWrite (rw : CapturedWriter) (b : GoStr) : (Nat × Option GoStr) × CapturedWriter :=
  ((b.length, none), { real := rw.real, body := rw.body ++ b, statusCode := rw.statusCode })

/-- Embedding of responseWriter.WriteHeader (src/livereload.go lines 36-38):
records the status code only. -/
def rwWriteHeader (rw : CapturedWriter) (c : Nat) : CapturedWriter :=
  { real := rw.real, body := rw.body, statusCode := c }

/-- Embedding of responseWriter.Header (src/livereload.go lines 40-42): returns
the real writer's own header map. -/
def rwHeader (rw : CapturedWriter) : HeaderMap := rw.real.header

/-- Running the wrapped handler against the capturer: writes and status codes go
to the capturer's buffers, header mutations go straight to the real writer's
header map. -/
def runCaptured : List HandlerOp → CapturedWriter → CapturedWriter
  | [], rw => rw
  | HandlerOp.write b :: ops, rw => runCaptured ops (rwWrite rw b).2
  | HandlerOp.writeHeader c :: ops, rw => runCaptured ops (rwWriteHeader rw c)
  | HandlerOp.headerAdd k v :: ops, rw =>
      runCaptured ops { real := realHeaderAdd rw.real k v, body := rw.body, statusCode := rw.statusCode }

/-- The inner loop of the HTML-branch header copy (src/livereload.go lines
142-144): add every value of one snapshot entry to the real writer. -/
def addAllValues (w : RealWriter) (k : GoStr) (vs : List GoStr) : RealWriter :=
  vs.foldl (fun acc v => realHeaderAdd acc k v) w

/-- The HTML-branch header copy loop (src/livereload.go lines 141-145): for every
key/value pair of the snapshot, Add it to the real writer's header map. -/
def copyHeaders (snapshot : HeaderMap) (w : RealWriter) : RealWriter :=
  snapshot.foldl (fun acc kv => addAllValues acc kv.1 kv.2) w

/-- Embedding of the catch-all handler registered on the root route
(src/livereload.go lines 111-148). -/
def serveCatchall (script : GoStr) (next : List HandlerOp) (r : Request) (w : RealWriter) : RealWriter :=
  if !isDevelopmentMode r then runReal next w
  else
    let wrapper := runCaptured next { real := w, body := [], statusCode := 200 }
    if !isHTMLResponse wrapper.body (rwHeader wrapper) then
      realWrite (if wrapper.statusCode ≠ 200 then realWriteHeader wrapper.real wrapper.statusCode
                 else wrapper.real) wrapper.body
    else
      realWrite (copyHeaders (rwHeader wrapper)
                  (if wrapper.statusCode ≠ 200 then realWriteHeader wrapper.real wrapper.statusCode
                   else wrapper.real))
        (injectScript script wrapper.body)

/-- Embedding of the composite handler built by Middleware (src/livereload.go
lines 108-151): the notification route is taken over by the websocket endpoint
(modelled separately by handleLiveReload; it leaves the plain response-writer
model untouched), every other path runs the catch-all handler. -/
def middlewareServe (script : GoStr) (next : List HandlerOp) (r : Request) (w : RealWriter) : RealWriter :=
  if r.path = wsPath then w
  else serveCatchall script next r w

/-- The structured payload sent over the notification channel. -/
structure WsMessage where
  msgType : GoStr
  startTime : Int
deriving DecidableEq

/-- The one server-info payload sent by handleLiveReload (src/livereload.go
lines 90-93). -/
def serverInfoMsg (startTime : Int) : WsMessage :=
  { msgType := "server-info".toList, startTime := startTime }

/-- Outcome of one ReadMessage call on the channel. -/
inductive ReadResult
  | ok (payload : GoStr)
  | err
deriving DecidableEq

/-- Observable outcome of one notification-channel connection: the messages the
server sent, and whether the channel was closed. -/
structure WsTrace where
  sent : List WsMessage
  closed : Bool
deriving DecidableEq

/-- The read loop of handleLiveReload (src/livereload.go lines 99-104): discard
inbound messages until a read fails.  Returns none when the given inbound
sequence is exhausted without a failure, modelling a loop still blocked on a
read. -/
def readLoop : List ReadResult → Option Unit
  | [] => none
  | ReadResult.ok _ :: rest => readLoop rest
  | ReadResult.err :: _ => some ()

/-- Embedding of handleLiveReload (src/livereload.go lines 82-105), with the
websocket connection abstracted as the outcome of the upgrade, the outcome of
the single WriteJSON, and the sequence of inbound read outcomes.  The result is
none when the handler never returns (still blocked reading). -/
def handleLiveReload (startTime : Int) (upgradeOk : Bool) (sendOk : Bool)
    (reads : List ReadResult) : Option WsTrace :=
  if !upgradeOk then some { sent := [], closed := false }
  else if !sendOk then some { sent := [], closed := true }
  else
    match readLoop reads with
    | none => none
    | some _ => some { sent := [serverInfoMsg startTime], closed := true }

theorem isPrefixOf_iff_append (l₁ l₂ : GoStr) :
    l₁.isPrefixOf l₂ = true ↔ ∃ t, l₂ = l₁ ++ t := by
  induction l₁ generalizing l₂ with
  | nil => simp [List.isPrefixOf]
  | cons a as ih =>
      cases l₂ with
      | nil => simp [List.isPrefixOf]
      | cons b bs =>
          simp only [List.isPrefixOf, Bool.and_eq_true, beq_iff_eq, ih, List.cons_append]
          constructor
          · rintro ⟨rfl, t, rfl⟩
            exact ⟨t, rfl⟩
          · rintro ⟨t, ht⟩
            injection ht with h1 h2
            exact ⟨h1.symm, t, h2⟩

theorem hasSubstr_iff (pat s : GoStr) :
    hasSubstr pat s = true ↔ ∃ p q, s = p ++ pat ++ q := by
  induction s with
  | nil =>
      simp only [hasSubstr, decide_eq_true_eq]
      constructor
      · rintro rfl
        exact ⟨[], [], rfl⟩
      · rintro ⟨p, q, hpq⟩
        rcases List.append_eq_nil.mp hpq.symm with ⟨h1, h2⟩
        exact (List.append_eq_nil.mp h1).2
  | cons c rest ih =>
      simp only [hasSubstr, Bool.or_eq_true, ih, isPrefixOf_iff_append]
      constructor
      · rintro (⟨t, ht⟩ | ⟨p, q, hpq⟩)
        · exact ⟨[], t, by simpa using ht⟩
        · exact ⟨c :: p, q, by simp [hpq]⟩
      · rintro ⟨p, q, hpq⟩
        cases p with
        | nil =>
            left
            exact ⟨q, by simpa using hpq⟩
        | cons x xs =>
            right
            injection hpq with h1 h2
            exact ⟨xs, q, h2⟩

theorem replaceFirst_first (pat rep s : GoStr) (hpat : pat ≠ [])
    (h : hasSubstr pat s = true) :
    ∃ p q, s = p ++ pat ++ q ∧ replaceFirst pat rep s = p ++ rep ++ q ∧
      ∀ p' q', s = p' ++ pat ++ q' → p.length ≤ p'.length := by
  induction s with
  | nil =>
      exfalso
      simp only [hasSubstr, decide_eq_true_eq] at h
      exact hpat h
  | cons c rest ih =>
      by_cases hp : pat.isPrefixOf (c :: rest) = true
      · rcases (isPrefixOf_iff_append pat (c :: rest)).mp hp with ⟨t, ht⟩
        refine ⟨[], t, by simpa using ht, ?_, ?_⟩
        · simp only [replaceFirst, hp, if_true]
          rw [ht]
          simp [List.drop_left]
        · intro p' q' hpq
          simp
      · have hrest : hasSubstr pat rest = true := by
          simp only [hasSubstr, Bool.or_eq_true] at h
          rcases h with h | h
          · exact absurd h hp
          · exact h
        rcases ih hrest with ⟨p, q, hs, hr, hmin⟩
        refine ⟨c :: p, q, by simp [hs], ?_, ?_⟩
        · simp only [replaceFirst]
          rw [if_neg (by simpa using hp)]
          simp [hr]
        · intro p' q' hpq
          cases p' with
          | nil =>
              exfalso
              apply hp
              apply (isPrefixOf_iff_append pat (c :: rest)).mpr
              exact ⟨q', by simpa using hpq⟩
          | cons x xs =>
              have hx : rest = xs ++ pat ++ q' := by
                injection hpq with h1 h2
              simpa using Nat.succ_le_succ (hmin xs q' hx)

/-- C1: injectScript inserts the snippet (followed by a newline) at the first
occurrence of the closing head tag; if that marker is absent, at the first
occurrence of the closing body tag; if that one is absent too, at the first
occurrence of the closing html tag; and when none of the three markers occur,
appends the snippet at the end of the body.  Only the first occurrence of the
chosen marker is modified, the inserted text sits immediately before that
occurrence, and the original body is recoverable as the exact prefix and suffix
around the inserted text. -/
theorem injectScript_correct (script body : GoStr) :
    (hasSubstr headClose body = true →
      ∃ p q, body = p ++ headClose ++ q ∧
        injectScript script body = p ++ (script ++ newlineStr) ++ headClose ++ q ∧
        ∀ p' q', body = p' ++ headClose ++ q' → p.length ≤ p'.length) ∧
    (hasSubstr headClose body = false → hasSubstr bodyCloseTag body = true →
      ∃ p q, body = p ++ bodyCloseTag ++ q ∧
        injectScript script body = p ++ (script ++ newlineStr) ++ bodyCloseTag ++ q ∧
        ∀ p' q', body = p' ++ bodyCloseTag ++ q' → p.length ≤ p'.length) ∧
    (hasSubstr headClose body = false → hasSubstr bodyCloseTag body = false →
      hasSubstr htmlClose body = true →
      ∃ p q, body = p ++ htmlClose ++ q ∧
        injectScript script body = p ++ (script ++ newlineStr) ++ htmlClose ++ q ∧
        ∀ p' q', body = p' ++ htmlClose ++ q' → p.length ≤ p'.length) ∧
    (hasSubstr headClose body = false → hasSubstr bodyCloseTag body = false →
      hasSubstr htmlClose body = false →
      injectScript script body = body ++ script) := by
  refine ⟨?_, ?_, ?_, ?_⟩
  · intro h1
    rcases replaceFirst_first headClose (script ++ newlineStr ++ headClose) body
      (by decide) h1 with ⟨p, q, hs, hr, hmin⟩
    refine ⟨p, q, hs, ?_, hmin⟩
    simp only [injectScript, h1, if_true, hr]
    simp
  · intro h1 h2
    rcases replaceFirst_first bodyCloseTag (script ++ newlineStr ++ bodyCloseTag) body
      (by decide) h2 with ⟨p, q, hs, hr, hmin⟩
    refine ⟨p, q, hs, ?_, hmin⟩
    simp only [injectScript, h1, h2, Bool.false_eq_true, if_false, if_true, hr]
    simp
  · intro h1 h2 h3
    rcases replaceFirst_first htmlClose (script ++ newlineStr ++ htmlClose) body
      (by decide) h3 with ⟨p, q, hs, hr, hmin⟩
    refine ⟨p, q, hs, ?_, hmin⟩
    simp only [injectScript, h1, h2, h3, Bool.false_eq_true, if_false, if_true, hr]
    simp
  · intro h1 h2 h3
    simp only [injectScript, h1, h2, h3, Bool.false_eq_true, if_false]

/-- Witness for injectScript_correct at concrete bodies, one for each of the
four branches. -/
theorem injectScript_correct_witness :
    (∃ p q, "<a></head><b></head>".toList = p ++ headClose ++ q ∧
      injectScript "S".toList "<a></head><b></head>".toList =
        p ++ ("S".toList ++ newlineStr) ++ headClose ++ q ∧
      ∀ p' q', "<a></head><b></head>".toList = p' ++ headClose ++ q' →
        p.length ≤ p'.length) ∧
    (∃ p q, "x</body>".toList = p ++ bodyCloseTag ++ q ∧
      injectScript "S".toList "x</body>".toList =
        p ++ ("S".toList ++ newlineStr) ++ bodyCloseTag ++ q ∧
      ∀ p' q', "x</body>".toList = p' ++ bodyCloseTag ++ q' → p.length ≤ p'.length) ∧
    (∃ p q, "x</html>".toList = p ++ htmlClose ++ q ∧
      injectScript "S".toList "x</html>".toList =
        p ++ ("S".toList ++ newlineStr) ++ htmlClose ++ q ∧
      ∀ p' q', "x</html>".toList = p' ++ htmlClose ++ q' → p.length ≤ p'.length) ∧
    injectScript "S".toList "abc".toList = "abc".toList ++ "S".toList :=
  ⟨(injectScript_correct "S".toList "<a></head><b></head>".toList).1 (by decide),
   (injectScript_correct "S".toList "x</body>".toList).2.1 (by decide) (by decide),
   (injectScript_correct "S".toList "x</html>".toList).2.2.1 (by decide) (by decide) (by decide),
   (injectScript_correct "S".toList "abc".toList).2.2.2 (by decide) (by decide) (by decide)⟩

/-- C10: injectScript adds exactly one copy of the snippet and nothing else
except a single newline: the output length equals the input length plus the
snippet length, plus one extra byte exactly when the body contains at least one
of the three closing markers; in the append case no newline is added. -/
theorem injectScript_length (script body : GoStr) :
    (injectScript script body).length =
      body.length + script.length +
        (if (hasSubstr headClose body || hasSubstr bodyCloseTag body ||
             hasSubstr htmlClose body) = true then 1 else 0) := by
  by_cases h1 : hasSubstr headClose body = true
  · rcases replaceFirst_first headClose (script ++ newlineStr ++ headClose) body
      (by decide) h1 with ⟨p, q, hs, hr, _⟩
    simp only [injectScript, h1, if_true, hr, Bool.true_or]
    subst hs
    simp [List.length_append, newlineStr]
    omega
  · rw [Bool.not_eq_true] at h1
    by_cases h2 : hasSubstr bodyCloseTag body = true
    · rcases replaceFirst_first bodyCloseTag (script ++ newlineStr ++ bodyCloseTag) body
        (by decide) h2 with ⟨p, q, hs, hr, _⟩
      simp only [injectScript, h1, h2, Bool.false_eq_true, if_false, if_true, hr,
        Bool.true_or, Bool.or_true]
      subst hs
      simp [List.length_append, newlineStr]
      omega
    · rw [Bool.not_eq_true] at h2
      by_cases h3 : hasSubstr htmlClose body = true
      · rcases replaceFirst_first htmlClose (script ++ newlineStr ++ htmlClose) body
          (by decide) h3 with ⟨p, q, hs, hr, _⟩
        simp only [injectScript, h1, h2, h3, Bool.false_eq_true, if_false, if_true, hr,
          Bool.or_true]
        subst hs
        simp [List.length_append, newlineStr]
        omega
      · rw [Bool.not_eq_true] at h3
        simp [injectScript, h1, h2, h3, List.length_append]

/-- C2: isHTMLResponse returns true iff the declared Content-Type value contains
text/html as a case-sensitive substring, or, as a fallback, the lower-cased body
contains the opening html marker, the html doctype marker, the opening head
marker, or both the opening and the closing body markers.  In particular it
returns true whenever the Content-Type contains text/html, regardless of body
content. -/
theorem isHTMLResponse_correct (body : GoStr) (headers : HeaderMap) :
    (isHTMLResponse body headers = true ↔
      ((∃ p q, hGet headers contentTypeKey = p ++ textHtml ++ q) ∨
       (∃ p q, toLowerStr body = p ++ htmlOpen ++ q) ∨
       (∃ p q, toLowerStr body = p ++ doctypeHtml ++ q) ∨
       (∃ p q, toLowerStr body = p ++ headOpen ++ q) ∨
       ((∃ p q, toLowerStr body = p ++ bodyOpen ++ q) ∧
        (∃ p q, toLowerStr body = p ++ bodyCloseTag ++ q)))) ∧
    (∀ anyBody : GoStr,
      isHTMLResponse anyBody
        [(contentTypeKey, ["text/html; charset=utf-8".toList])] = true) := by
  constructor
  · by_cases hct : hasSubstr textHtml (hGet headers contentTypeKey) = true
    · simp only [isHTMLResponse, hct, if_true, true_iff]
      exact Or.inl ((hasSubstr_iff _ _).mp hct)
    · have hct' : ¬ ∃ p q, hGet headers contentTypeKey = p ++ textHtml ++ q := by
        rw [← hasSubstr_iff]
        simpa using hct
      rw [Bool.not_eq_true] at hct
      simp only [isHTMLResponse, hct, Bool.false_eq_true, if_false, Bool.or_eq_true,
        Bool.and_eq_true, hasSubstr_iff]
      constructor
      · rintro (((h | h) | h) | h)
        · exact Or.inr (Or.inl h)
        · exact Or.inr (Or.inr (Or.inl h))
        · exact Or.inr (Or.inr (Or.inr (Or.inl h)))
        · exact Or.inr (Or.inr (Or.inr (Or.inr h)))
      · rintro (h | h | h | h | h)
        · exact absurd h hct'
        · exact Or.inl (Or.inl (Or.inl h))
        · exact Or.inl (Or.inl (Or.inr h))
        · exact Or.inl (Or.inr h)
        · exact Or.inr h
  · intro anyBody
    have hct : hasSubstr textHtml
        (hGet [(contentTypeKey, ["text/html; charset=utf-8".toList])] contentTypeKey) = true := by
      rw [hasSubstr_iff]
      exact ⟨[], "; charset=utf-8".toList, by decide⟩
    simp only [isHTMLResponse]
    rw [if_pos hct]

/-- C6: isDevelopmentMode returns true iff the request's host contains the
string localhost or the loopback address as a substring (which subsumes hosts
beginning with either, with or without a trailing port); in particular it is
true for localhost with port 3000, the bare loopback address, the loopback
address with port 8080, and false for the example.com host. -/
theorem isDevelopmentMode_correct :
    (∀ r : Request, isDevelopmentMode r = true ↔
      ((∃ p q, r.host = p ++ localhostStr ++ q) ∨
       (∃ p q, r.host = p ++ loopbackStr ++ q))) ∧
    isDevelopmentMode { host := "localhost:3000".toList, path := "/".toList } = true ∧
    isDevelopmentMode { host := "127.0.0.1".toList, path := "/".toList } = true ∧
    isDevelopmentMode { host := "127.0.0.1:8080".toList, path := "/".toList } = true ∧
    isDevelopmentMode { host := "example.com".toList, path := "/".toList } = false := by
  refine ⟨?_, by decide, by decide, by decide, by decide⟩
  intro r
  simp only [isDevelopmentMode, Bool.or_eq_true, hasSubstr_iff, isPrefixOf_iff_append]
  constructor
  · rintro (((⟨p, q, h⟩ | ⟨p, q, h⟩) | ⟨t, h⟩) | ⟨t, h⟩)
    · exact Or.inl ⟨p, q, h⟩
    · exact Or.inr ⟨p, q, h⟩
    · refine Or.inl ⟨[], ':' :: t, ?_⟩
      have e : localhostColon = localhostStr ++ [':'] := by decide
      rw [h, e]
      simp
    · refine Or.inr ⟨[], ':' :: t, ?_⟩
      have e : loopbackColon = loopbackStr ++ [':'] := by decide
      rw [h, e]
      simp
  · rintro (⟨p, q, h⟩ | ⟨p, q, h⟩)
    · exact Or.inl (Or.inl (Or.inl ⟨p, q, h⟩))
    · exact Or.inl (Or.inl (Or.inr ⟨p, q, h⟩))

/-- C7: writing to the capturer returns exactly the byte count given and no
error, and neither Write nor WriteHeader on the capturer changes the real
response writer in any way, so no bytes and no status code reach the real
connection before the dispatcher explicitly flushes. -/
theorem capturer_buffers :
    (∀ (rw : CapturedWriter) (b : GoStr),
      (rwWrite rw b).1 = (b.length, none) ∧ (rwWrite rw b).2.real = rw.real) ∧
    (∀ (rw : CapturedWriter) (c : Nat), (rwWriteHeader rw c).real = rw.real) :=
  ⟨fun _ _ => ⟨rfl, rfl⟩, fun _ _ => rfl⟩

theorem runCaptured_real_wire (ops : List HandlerOp) (rw : CapturedWriter) :
    (runCaptured ops rw).real.wire = rw.real.wire ∧
    (runCaptured ops rw).real.wroteHeader = rw.real.wroteHeader := by
  induction ops generalizing rw with
  | nil => exact ⟨rfl, rfl⟩
  | cons op ops ih =>
      cases op with
      | write b => exact ih _
      | writeHeader c => exact ih _
      | headerAdd k v => exact ih _

/-- The status codes the wrapped handler sets explicitly, in order. -/
def writeHeaderCodes : List HandlerOp → List Nat
  | [] => []
  | HandlerOp.write _ :: ops => writeHeaderCodes ops
  | HandlerOp.writeHeader c :: ops => c :: writeHeaderCodes ops
  | HandlerOp.headerAdd _ _ :: ops => writeHeaderCodes ops

theorem runCaptured_status_none (ops : List HandlerOp) (rw : CapturedWriter)
    (h : writeHeaderCodes ops = []) :
    (runCaptured ops rw).statusCode = rw.statusCode := by
  induction ops generalizing rw with
  | nil => rfl
  | cons op ops ih =>
      cases op with
      | write b => exact ih _ h
      | writeHeader c => simp [writeHeaderCodes] at h
      | headerAdd k v => exact ih _ h

theorem runCaptured_status_single (ops : List HandlerOp) (c : Nat) (rw : CapturedWriter)
    (h : writeHeaderCodes ops = [c]) :
    (runCaptured ops rw).statusCode = c := by
  induction ops generalizing rw with
  | nil => simp [writeHeaderCodes] at h
  | cons op ops ih =>
      cases op with
      | write b => exact ih _ h
      | writeHeader c' =>
          simp only [writeHeaderCodes] at h
          injection h with h1 h2
          subst h1
          exact runCaptured_status_none ops _ h2
      | headerAdd k v => exact ih _ h

/-- C4: for every request whose path is not the notification route and which is
not classified as development mode, the composite handler is exactly the
wrapped handler run directly against the real response writer: same status,
headers, body bytes and order, no buffering, no modification. -/
theorem passthrough_non_dev (script : GoStr) (next : List HandlerOp) (r : Request)
    (w : RealWriter) (hws : r.path ≠ wsPath) (hdev : isDevelopmentMode r = false) :
    middlewareServe script next r w = runReal next w := by
  rw [middlewareServe, if_neg hws, serveCatchall, hdev]
  simp

/-- Witness for passthrough_non_dev at a concrete non-development request. -/
theorem passthrough_non_dev_witness :
    middlewareServe "S".toList [HandlerOp.writeHeader 201, HandlerOp.write "hi".toList]
        { host := "example.com".toList, path := "/abc".toList }
        { header := [], wroteHeader := false, wire := [] } =
      runReal [HandlerOp.writeHeader 201, HandlerOp.write "hi".toList]
        { header := [], wroteHeader := false, wire := [] } :=
  passthrough_non_dev _ _ _ _ (by decide) (by decide)

def isStatusLine : WireEvent → Bool
  | WireEvent.statusLine _ _ => true
  | WireEvent.headerBlock _ => false
  | WireEvent.bodyChunk _ => false

theorem flush_wire_plain (w : RealWriter) (code : Nat) (bytes : GoStr)
    (hwh : w.wroteHeader = false) (hwire : w.wire = []) :
    (realWrite (if code ≠ 200 then realWriteHeader w code else w) bytes).wire =
      [WireEvent.statusLine code (decide (code ≠ 200)), WireEvent.headerBlock w.header,
       WireEvent.bodyChunk bytes] := by
  by_cases hc : code = 200
  · subst hc
    simp [realWrite, realWriteHeaderCore, hwh, hwire]
  · simp [realWrite, realWriteHeader, realWriteHeaderCore, hwh, hwire, hc]

theorem addAllValues_parts (k : GoStr) (vs : List GoStr) (w : RealWriter) :
    (addAllValues w k vs).wire = w.wire ∧
    (addAllValues w k vs).wroteHeader = w.wroteHeader := by
  induction vs generalizing w with
  | nil => exact ⟨rfl, rfl⟩
  | cons v vs ih => exact ih _

theorem copyHeaders_parts (snap : HeaderMap) (w : RealWriter) :
    (copyHeaders snap w).wire = w.wire ∧
    (copyHeaders snap w).wroteHeader = w.wroteHeader := by
  induction snap generalizing w with
  | nil => exact ⟨rfl, rfl⟩
  | cons kv rest ih =>
      have h1 := addAllValues_parts kv.1 kv.2 w
      have h2 := ih (addAllValues w kv.1 kv.2)
      exact ⟨h2.1.trans h1.1, h2.2.trans h1.2⟩

theorem flush_wire_html (w : RealWriter) (code : Nat) (snap : HeaderMap) (bytes : GoStr)
    (hwh : w.wroteHeader = false) (hwire : w.wire = []) :
    ∃ hb,
      (realWrite (copyHeaders snap (if code ≠ 200 then realWriteHeader w code else w)) bytes).wire =
        [WireEvent.statusLine code (decide (code ≠ 200)), WireEvent.headerBlock hb,
         WireEvent.bodyChunk bytes] := by
  by_cases hc : code = 200
  · subst hc
    refine ⟨(copyHeaders snap w).header, ?_⟩
    have hp := copyHeaders_parts snap w
    simp [realWrite, realWriteHeaderCore, hp.1, hp.2, hwh, hwire]
  · refine ⟨w.header, ?_⟩
    rw [if_pos hc]
    have hp := copyHeaders_parts snap (realWriteHeader w code)
    simp only [realWriteHeader, realWriteHeaderCore, hwh, Bool.false_eq_true, if_false,
      hwire, List.nil_append] at hp ⊢
    simp [realWrite, realWriteHeaderCore, hp.1, hp.2, hc]

/-- C3: for every development-mode request handled through the capturer whose
wrapped handler explicitly sets a status code (exactly one explicit set), that
exact code is the status line written to the real response, the status line
appears exactly once on the wire, and it is the first wire event, hence written
before any header block or body bytes are flushed to the real response. -/
theorem status_written_once_first (script : GoStr) (next : List HandlerOp) (r : Request)
    (h0 : HeaderMap) (c : Nat)
    (hws : r.path ≠ wsPath) (hdev : isDevelopmentMode r = true)
    (hone : writeHeaderCodes next = [c]) :
    ∃ expl rest,
      (middlewareServe script next r { header := h0, wroteHeader := false, wire := [] }).wire =
        WireEvent.statusLine c expl :: rest ∧
      rest.countP (fun e => isStatusLine e) = 0 := by
  have hcapw := runCaptured_real_wire next
    { real := { header := h0, wroteHeader := false, wire := [] }, body := [], statusCode := 200 }
  have hst := runCaptured_status_single next c
    { real := { header := h0, wroteHeader := false, wire := [] }, body := [], statusCode := 200 } hone
  rw [middlewareServe, if_neg hws, serveCatchall, hdev]
  simp only [Bool.not_true, Bool.false_eq_true, if_false]
  set cap := runCaptured next { real := { header := h0, wroteHeader := false, wire := [] }, body := [], statusCode := 200 } with hcapdef
  by_cases hh : isHTMLResponse cap.body (rwHeader cap) = true
  · rw [hh]
    simp only [Bool.not_true, Bool.false_eq_true, if_false]
    rcases flush_wire_html cap.real cap.statusCode (rwHeader cap)
      (injectScript script cap.body) hcapw.2 hcapw.1 with ⟨hb, hw⟩
    rw [hw, hst]
    refine ⟨decide (c ≠ 200), _, rfl, ?_⟩
    simp [List.countP_cons, isStatusLine]
  · rw [Bool.not_eq_true] at hh
    rw [hh]
    simp only [Bool.not_false, if_true]
    rw [flush_wire_plain cap.real cap.statusCode cap.body hcapw.2 hcapw.1, hst]
    refine ⟨decide (c ≠ 200), _, rfl, ?_⟩
    simp [List.countP_cons, isStatusLine]

/-- Witness for status_written_once_first: a development-mode request whose
handler sets status 404 once yields a wire whose first and only status line
carries 404. -/
theorem status_written_once_first_witness :
    ∃ expl rest,
      (middlewareServe "S".toList [HandlerOp.writeHeader 404, HandlerOp.write "hi".toList]
          { host := "localhost".toList, path := "/".toList }
          { header := [], wroteHeader := false, wire := [] }).wire =
        WireEvent.statusLine 404 expl :: rest ∧
      rest.countP (fun e => isStatusLine e) = 0 :=
  status_written_once_first "S".toList [HandlerOp.writeHeader 404, HandlerOp.write "hi".toList]
    { host := "localhost".toList, path := "/".toList } [] 404
    (by decide) (by decide) (by decide)

/-- C5: for every development-mode request whose captured response is not
classified as HTML, the dispatcher puts the captured status code on the wire
with an explicit WriteHeader exactly when it differs from the default 200 (and
implicitly through the first Write otherwise), flushes the header map exactly
as the handler left it, and writes the captured body bytes verbatim, with no
injection or other modification. -/
theorem non_html_flush_verbatim (script : GoStr) (next : List HandlerOp) (r : Request)
    (h0 : HeaderMap) (cap : CapturedWriter)
    (hcap : cap = runCaptured next
      { real := { header := h0, wroteHeader := false, wire := [] }, body := [], statusCode := 200 })
    (hws : r.path ≠ wsPath) (hdev : isDevelopmentMode r = true)
    (hnh : isHTMLResponse cap.body (rwHeader cap) = false) :
    (middlewareServe script next r { header := h0, wroteHeader := false, wire := [] }).wire =
      [WireEvent.statusLine cap.statusCode (decide (cap.statusCode ≠ 200)),
       WireEvent.headerBlock cap.real.header, WireEvent.bodyChunk cap.body] := by
  have hcapw := runCaptured_real_wire next
    { real := { header := h0, wroteHeader := false, wire := [] }, body := [], statusCode := 200 }
  rw [← hcap] at hcapw
  rw [middlewareServe, if_neg hws, serveCatchall, hdev]
  simp only [Bool.not_true, Bool.false_eq_true, if_false]
  rw [← hcap, hnh]
  simp only [Bool.not_false, if_true]
  exact flush_wire_plain cap.real cap.statusCode cap.body hcapw.2 hcapw.1

/-- Witness for non_html_flush_verbatim: a handler writing status 404 and a JSON
body under a localhost host yields final status 404 and the unmodified JSON
body on the wire. -/
theorem non_html_flush_verbatim_witness :
    (middlewareServe "S".toList [HandlerOp.writeHeader 404, HandlerOp.write "[1,2]".toList]
        { host := "localhost".toList, path := "/".toList }
        { header := [], wroteHeader := false, wire := [] }).wire =
      [WireEvent.statusLine 404 true, WireEvent.headerBlock [],
       WireEvent.bodyChunk "[1,2]".toList] := by
  have h := non_html_flush_verbatim "S".toList
    [HandlerOp.writeHeader 404, HandlerOp.write "[1,2]".toList]
    { host := "localhost".toList, path := "/".toList } [] _ rfl
    (by decide) (by decide) (by decide)
  rw [h]
  decide

/-- Header-map effect of the inner copy loop, at the level of the map alone. -/
def hAddAll (h : HeaderMap) (k : GoStr) (vs : List GoStr) : HeaderMap :=
  vs.foldl (fun acc v => hAdd acc k v) h

/-- Header-map effect of the whole copy loop, at the level of the map alone. -/
def hCopy (snapshot h : HeaderMap) : HeaderMap :=
  snapshot.foldl (fun acc kv => hAddAll acc kv.1 kv.2) h

theorem addAllValues_header (k : GoStr) (vs : List GoStr) (w : RealWriter) :
    (addAllValues w k vs).header = hAddAll w.header k vs := by
  induction vs generalizing w with
  | nil => rfl
  | cons v vs ih => exact ih _

theorem copyHeaders_header (snap : HeaderMap) (w : RealWriter) :
    (copyHeaders snap w).header = hCopy snap w.header := by
  induction snap generalizing w with
  | nil => rfl
  | cons kv rest ih =>
      have h1 := ih (addAllValues w kv.1 kv.2)
      rw [show copyHeaders (kv :: rest) w = copyHeaders rest (addAllValues w kv.1 kv.2) from rfl,
        h1, addAllValues_header]
      rfl

def headerKeys (h : HeaderMap) : List GoStr := h.map Prod.fst

theorem headerKeys_append (a b : HeaderMap) :
    headerKeys (a ++ b) = headerKeys a ++ headerKeys b := by
  simp [headerKeys]

theorem headerKeys_cons (k : GoStr) (vs : List GoStr) (l : HeaderMap) :
    headerKeys ((k, vs) :: l) = k :: headerKeys l := rfl

theorem headerKeys_hAdd (h : HeaderMap) (k v : GoStr) :
    headerKeys (hAdd h k v) =
      if k ∈ headerKeys h then headerKeys h else headerKeys h ++ [k] := by
  induction h with
  | nil => simp [hAdd, headerKeys]
  | cons kv rest ih =>
      rcases kv with ⟨k', vs⟩
      by_cases hk : k' = k
      · subst hk
        simp [hAdd, headerKeys]
      · have hne : ¬ k = k' := fun e => hk e.symm
        have e1 : hAdd ((k', vs) :: rest) k v = (k', vs) :: hAdd rest k v := by
          simp [hAdd, hk]
        rw [e1, headerKeys_cons, ih, headerKeys_cons]
        by_cases hm : k ∈ headerKeys rest
        · rw [if_pos hm, if_pos (List.mem_cons_of_mem _ hm)]
        · rw [if_neg hm, if_neg (by
            intro hmem
            rcases List.mem_cons.mp hmem with e | e
            · exact hne e
            · exact hm e)]
          simp

theorem headerKeys_nodup_hAdd (h : HeaderMap) (k v : GoStr)
    (hnd : (headerKeys h).Nodup) : (headerKeys (hAdd h k v)).Nodup := by
  rw [headerKeys_hAdd]
  by_cases hm : k ∈ headerKeys h
  · simpa [hm] using hnd
  · simp only [hm, if_false]
    rw [List.nodup_append]
    exact ⟨hnd, List.nodup_singleton k, by simpa [List.disjoint_singleton] using hm⟩

theorem runCaptured_header_nodup (ops : List HandlerOp) (rw : CapturedWriter)
    (hnd : (headerKeys rw.real.header).Nodup) :
    (headerKeys (runCaptured ops rw).real.header).Nodup := by
  induction ops generalizing rw with
  | nil => exact hnd
  | cons op ops ih =>
      cases op with
      | write b => exact ih _ hnd
      | writeHeader c => exact ih _ hnd
      | headerAdd k v => exact ih _ (headerKeys_nodup_hAdd _ _ _ hnd)

theorem hAdd_at (a b : HeaderMap) (k : GoStr) (vs : List GoStr) (v : GoStr)
    (ha : ¬ k ∈ headerKeys a) :
    hAdd (a ++ (k, vs) :: b) k v = a ++ (k, vs ++ [v]) :: b := by
  induction a with
  | nil => simp [hAdd]
  | cons kv rest ih =>
      rcases kv with ⟨k', vs'⟩
      have hk : ¬ k' = k := by
        intro e
        exact ha (by simp [headerKeys, e])
      have ha' : ¬ k ∈ headerKeys rest := by
        intro hm
        exact ha (by simp [headerKeys] at hm ⊢; exact Or.inr hm)
      simp only [List.cons_append, hAdd, hk, if_false, List.append_eq]
      rw [ih ha']

theorem hAddAll_at (a b : HeaderMap) (k : GoStr) (vs ws : List GoStr)
    (ha : ¬ k ∈ headerKeys a) :
    hAddAll (a ++ (k, vs) :: b) k ws = a ++ (k, vs ++ ws) :: b := by
  induction ws generalizing vs with
  | nil => simp [hAddAll]
  | cons w ws ih =>
      rw [show hAddAll (a ++ (k, vs) :: b) k (w :: ws)
            = hAddAll (hAdd (a ++ (k, vs) :: b) k w) k ws from rfl]
      rw [hAdd_at a b k vs w ha, ih (vs ++ [w])]
      simp

theorem hCopy_dup (todo done : HeaderMap)
    (hnd : (headerKeys (done ++ todo)).Nodup) :
    hCopy todo (done ++ todo) = done ++ todo.map (fun kv => (kv.1, kv.2 ++ kv.2)) := by
  induction todo generalizing done with
  | nil => simp [hCopy]
  | cons kv rest ih =>
      rcases kv with ⟨k, vs⟩
      have hka : ¬ k ∈ headerKeys done := by
        have h' : (headerKeys done ++ headerKeys ((k, vs) :: rest)).Nodup := by
          rw [← headerKeys_append]
          exact hnd
        rcases List.nodup_append.mp h' with ⟨_, _, hdisj⟩
        intro hm
        exact hdisj hm (by simp [headerKeys])
      rw [show hCopy ((k, vs) :: rest) (done ++ (k, vs) :: rest)
            = hCopy rest (hAddAll (done ++ (k, vs) :: rest) k vs) from rfl]
      rw [hAddAll_at done rest k vs vs hka]
      have hsplit : done ++ (k, vs ++ vs) :: rest = (done ++ [(k, vs ++ vs)]) ++ rest := by
        simp
      have hnd' : (headerKeys ((done ++ [(k, vs ++ vs)]) ++ rest)).Nodup := by
        have : headerKeys ((done ++ [(k, vs ++ vs)]) ++ rest)
            = headerKeys (done ++ (k, vs) :: rest) := by
          simp [headerKeys]
        rw [this]
        exact hnd
      rw [hsplit, ih (done ++ [(k, vs ++ vs)]) hnd']
      simp

theorem realWriteHeaderCore_header (w : RealWriter) (c : Nat) (e : Bool) :
    (realWriteHeaderCore w c e).header = w.header := by
  rw [realWriteHeaderCore]
  split <;> rfl

theorem realWrite_header (w : RealWriter) (b : GoStr) :
    (realWrite w b).header = w.header :=
  realWriteHeaderCore_header w 200 false

theorem realWriteHeader_header (w : RealWriter) (c : Nat) :
    (realWriteHeader w c).header = w.header :=
  realWriteHeaderCore_header w c true

/-- C9: because the capturer's Header() returns the real writer's own header map
rather than a separate buffered copy, the HTML-branch copy loop re-adds every
captured key/value pair to the same map it reads from: after flushing an HTML
response, every header value set by the wrapped handler appears twice in the
real response's header map. -/
theorem html_flush_duplicates_headers (script : GoStr) (next : List HandlerOp) (r : Request)
    (cap : CapturedWriter)
    (hcap : cap = runCaptured next
      { real := { header := [], wroteHeader := false, wire := [] }, body := [], statusCode := 200 })
    (hws : r.path ≠ wsPath) (hdev : isDevelopmentMode r = true)
    (hh : isHTMLResponse cap.body (rwHeader cap) = true) :
    (middlewareServe script next r { header := [], wroteHeader := false, wire := [] }).header =
      cap.real.header.map (fun kv => (kv.1, kv.2 ++ kv.2)) := by
  rw [middlewareServe, if_neg hws, serveCatchall, hdev]
  simp only [Bool.not_true, Bool.false_eq_true, if_false]
  rw [← hcap, hh]
  simp only [Bool.not_true, Bool.false_eq_true, if_false]
  rw [realWrite_header, copyHeaders_header]
  have hifh : (if cap.statusCode ≠ 200 then realWriteHeader cap.real cap.statusCode
      else cap.real).header = cap.real.header := by
    split
    · exact realWriteHeader_header _ _
    · rfl
  rw [hifh]
  have hnd : (headerKeys cap.real.header).Nodup := by
    rw [hcap]
    exact runCaptured_header_nodup next _ (by simp [headerKeys])
  have hdup := hCopy_dup cap.real.header [] (by simpa using hnd)
  simpa [rwHeader] using hdup

/-- Witness for html_flush_duplicates_headers: a handler setting one
Content-Type value and writing an HTML body under localhost ends with that
value duplicated in the final header map. -/
theorem html_flush_duplicates_headers_witness :
    (middlewareServe "S".toList
        [HandlerOp.headerAdd "Content-Type".toList "text/html".toList,
         HandlerOp.write "<p>hi</p>".toList]
        { host := "localhost".toList, path := "/".toList }
        { header := [], wroteHeader := false, wire := [] }).header =
      [("Content-Type".toList, ["text/html".toList, "text/html".toList])] := by
  have h := html_flush_duplicates_headers "S".toList
    [HandlerOp.headerAdd "Content-Type".toList "text/html".toList,
     HandlerOp.write "<p>hi</p>".toList]
    { host := "localhost".toList, path := "/".toList } _ rfl
    (by decide) (by decide) (by decide)
  rw [h]
  decide

/-- C8: for every notification-channel connection whose upgrade succeeds and
whose handler terminates, the server sent at most one message, every sent
message is the server-info payload carrying the process start integer, and the
channel is closed on exit; when the single send succeeds, the handler
terminates exactly with a failing read, having sent exactly the one server-info
payload, inbound messages having been read and discarded until that failing
read. -/
theorem livereload_protocol (st : Int) (sendOk : Bool) (reads : List ReadResult)
    (t : WsTrace) (h : handleLiveReload st true sendOk reads = some t) :
    (∀ m ∈ t.sent, m = serverInfoMsg st) ∧ t.sent.length ≤ 1 ∧ t.closed = true ∧
    (sendOk = true → t.sent = [serverInfoMsg st] ∧ readLoop reads = some ()) := by
  cases sendOk with
  | false =>
      simp only [handleLiveReload, Bool.not_true, Bool.false_eq_true, if_false,
        Bool.not_false, if_true, Option.some_inj] at h
      subst h
      exact ⟨by simp, by simp, rfl, by simp⟩
  | true =>
      simp only [handleLiveReload, Bool.not_true, Bool.false_eq_true, if_false] at h
      cases hr : readLoop reads with
      | none =>
          rw [hr] at h
          simp at h
      | some u =>
          rw [hr] at h
          simp only [Option.some_inj] at h
          subst h
          exact ⟨by simp, by simp, rfl, fun _ => ⟨rfl, by simp [hr]⟩⟩

/-- Witness for livereload_protocol at a concrete connection trace with one
ignored inbound message followed by a failing read. -/
theorem livereload_protocol_witness :
    (∀ m ∈ [serverInfoMsg 7], m = serverInfoMsg 7) ∧
    ([serverInfoMsg 7] : List WsMessage).length ≤ 1 ∧ true = true ∧
    (true = true → [serverInfoMsg 7] = [serverInfoMsg 7] ∧
      readLoop [ReadResult.ok "x".toList, ReadResult.err] = some ()) :=
  livereload_protocol 7 true [ReadResult.ok "x".toList, ReadResult.err]
    { sent := [serverInfoMsg 7], closed := true } rfl

end Breezy
